import Mathlib

/-!
Verification of the document access-control and caching core of the
FileServer repository (`internal/services/document/service.go` and the
document repository), as a shallow embedding in Lean 4.

Modelling conventions:
* Go strings are Lean `String`.
* `models.Document` is embedded field by field; the `JSONData` byte slice
  and the `CreatedAt` timestamp are modelled as opaque strings (Go's
  `encoding/json` round-trips both through their string forms).
* Fallible collaborator calls (metadata store, blob store, cache) are
  modelled by explicit outcome values passed in an environment record, and
  each service operation returns, besides its result, a trace of the
  side-effecting calls it issued, in program order.
-/

namespace FileServer

/-- Embeds `models.Document` (internal/models/document.go). `JSONData` and
`CreatedAt` are modelled as opaque strings. -/
structure Document where
  id : String
  ownerID : String
  name : String
  mime : String
  isFile : Bool
  isPublic : Bool
  path : String
  jsonData : String
  grants : List String
  createdAt : String
deriving DecidableEq, Repr

/-- Embeds `hasReadAccess` (service.go): `doc.IsPublic || doc.OwnerID ==
userID || slices.Contains(doc.Grants, userLogin)`. -/
def hasReadAccess (doc : Document) (userID userLogin : String) : Bool :=
  doc.isPublic || doc.ownerID == userID || doc.grants.contains userLogin

/-- One character of JSON string escaping: the quote and the backslash are
escaped with a backslash, every other character stands for itself (the model
of `encoding/json` string encoding restricted to the characters that affect
the string grammar). -/
def escChar (c : Char) : List Char :=
  if c = '"' ∨ c = '\\' then ['\\', c] else [c]

/-- JSON string escaping over a character list. -/
def escape : List Char → List Char
  | [] => []
  | c :: cs => escChar c ++ escape cs

/-- The characters of a JSON string literal: opening quote, escaped body,
closing quote. -/
def encStrData (s : String) : List Char :=
  '"' :: escape s.data ++ ['"']

/-- A JSON string literal. -/
def encStr (s : String) : String :=
  String.mk (encStrData s)

/-- A JSON boolean literal. -/
def encBool (b : Bool) : String :=
  if b then ("true") else ("false")

/-- The comma-separated JSON string literals of a nonempty array body. -/
def encItemsData : List String → List Char
  | [] => []
  | [s] => encStrData s
  | s :: ss => encStrData s ++ ',' :: encItemsData ss

/-- A JSON array of string literals (`encoding/json` renders the repository's
always-non-nil grant slices this way, `[]` when empty). -/
def encArrData (l : List String) : List Char :=
  if l.isEmpty then ['[', ']'] else '[' :: encItemsData l ++ [']']

/-- A JSON array of string literals, as a string. -/
def encArr (l : List String) : String :=
  String.mk (encArrData l)

/-- Embeds `docToJSON` (service.go): `json.Marshal` of `models.Document`,
which renders the struct fields in declaration order under their JSON tags.
`JSONData` and `CreatedAt` are rendered through their modelled string
forms. -/
def docToJSON (doc : Document) : String :=
  "\x7b\"id\":" ++ encStr doc.id ++
  ",\"owner_id\":" ++ encStr doc.ownerID ++
  ",\"name\":" ++ encStr doc.name ++
  ",\"mime\":" ++ encStr doc.mime ++
  ",\"is_file\":" ++ encBool doc.isFile ++
  ",\"is_public\":" ++ encBool doc.isPublic ++
  ",\"path\":" ++ encStr doc.path ++
  ",\"json_data\":" ++ encStr doc.jsonData ++
  ",\"grants\":" ++ encArr doc.grants ++
  ",\"created_at\":" ++ encStr doc.createdAt ++
  "\x7d"

/-- Consume an expected literal character sequence, returning the remainder,
or `none` if the input does not start with it. -/
def expectLit : List Char → List Char → Option (List Char)
  | [], input => some input
  | _ :: _, [] => none
  | c :: cs, d :: ds => if c = d then expectLit cs ds else none

/-- Parse the body of a JSON string literal (the opening quote already
consumed): a backslash makes the following character literal, a bare quote
closes the string. -/
def parseStrBody : List Char → Option (List Char × List Char)
  | [] => none
  | c :: rest =>
    if c = '\\' then
      match rest with
      | [] => none
      | c2 :: rest2 =>
        match parseStrBody rest2 with
        | some (s, r) => some (c2 :: s, r)
        | none => none
    else if c = '"' then some ([], rest)
    else
      match parseStrBody rest with
      | some (s, r) => some (c :: s, r)
      | none => none

/-- Parse a complete JSON string literal, quote to quote. -/
def parseStrTok (input : List Char) : Option (String × List Char) :=
  match input with
  | [] => none
  | c :: rest =>
    if c = '"' then
      match parseStrBody rest with
      | some (s, r) => some (String.mk s, r)
      | none => none
    else none

/-- Parse a JSON boolean literal. -/
def parseBool (input : List Char) : Option (Bool × List Char) :=
  match expectLit (("true").data) input with
  | some r => some (true, r)
  | none =>
    match expectLit (("false").data) input with
    | some r => some (false, r)
    | none => none

/-- Parse the comma-separated items of a nonempty JSON string array up to and
including the closing bracket; `fuel` bounds the number of items. -/
def parseItemsF : Nat → List Char → Option (List String × List Char)
  | 0, _ => none
  | fuel + 1, input =>
    match input with
    | [] => none
    | c :: rest =>
      if c = '"' then
        match parseStrBody rest with
        | some (s, r) =>
          match r with
          | [] => none
          | d :: r2 =>
            if d = ',' then
              match parseItemsF fuel r2 with
              | some (ss, r3) => some (String.mk s :: ss, r3)
              | none => none
            else if d = ']' then some ([String.mk s], r2)
            else none
        | none => none
      else none

/-- Parse a JSON array of string literals. -/
def parseStrArr (input : List Char) : Option (List String × List Char) :=
  match input with
  | [] => none
  | c :: rest =>
    if c = '[' then
      match rest with
      | [] => none
      | d :: r =>
        if d = ']' then some ([], r)
        else parseItemsF rest.length rest
    else none

/-- Parse the canonical JSON object form of a `Document`, the exact shape
`docToJSON` emits (the model of `json.Unmarshal` into `models.Document`
restricted to that canonical grammar). -/
def parseDoc (input : List Char) : Option Document :=
  match expectLit (("\x7b\"id\":").data) input with
  | none => none
  | some r0 =>
  match parseStrTok r0 with
  | none => none
  | some (idv, s1) =>
  match expectLit ((",\"owner_id\":").data) s1 with
  | none => none
  | some r1 =>
  match parseStrTok r1 with
  | none => none
  | some (ownerv, s2) =>
  match expectLit ((",\"name\":").data) s2 with
  | none => none
  | some r2 =>
  match parseStrTok r2 with
  | none => none
  | some (namev, s3) =>
  match expectLit ((",\"mime\":").data) s3 with
  | none => none
  | some r3 =>
  match parseStrTok r3 with
  | none => none
  | some (mimev, s4) =>
  match expectLit ((",\"is_file\":").data) s4 with
  | none => none
  | some r4 =>
  match parseBool r4 with
  | none => none
  | some (isFilev, s5) =>
  match expectLit ((",\"is_public\":").data) s5 with
  | none => none
  | some r5 =>
  match parseBool r5 with
  | none => none
  | some (isPublicv, s6) =>
  match expectLit ((",\"path\":").data) s6 with
  | none => none
  | some r6 =>
  match parseStrTok r6 with
  | none => none
  | some (pathv, s7) =>
  match expectLit ((",\"json_data\":").data) s7 with
  | none => none
  | some r7 =>
  match parseStrTok r7 with
  | none => none
  | some (jsonDatav, s8) =>
  match expectLit ((",\"grants\":").data) s8 with
  | none => none
  | some r8 =>
  match parseStrArr r8 with
  | none => none
  | some (grantsv, s9) =>
  match expectLit ((",\"created_at\":").data) s9 with
  | none => none
  | some r9 =>
  match parseStrTok r9 with
  | none => none
  | some (createdv, s10) =>
  match expectLit (("\x7d").data) s10 with
  | none => none
  | some rEnd =>
  if rEnd = [] then
    some
      { id := idv, ownerID := ownerv, name := namev, mime := mimev,
        isFile := isFilev, isPublic := isPublicv, path := pathv,
        jsonData := jsonDatav, grants := grantsv, createdAt := createdv }
  else none

/-- Embeds `jsonToDoc` (service.go): an empty string is rejected, otherwise
the string is deserialized as a `Document`, `none` on malformed input. -/
def jsonToDoc (s : String) : Option Document :=
  if s.length = 0 then none else parseDoc s.data

/-- Embeds `hasDeleteAccess` (service.go): `doc.OwnerID == userID`. -/
def hasDeleteAccess (doc : Document) (userID : String) : Bool :=
  doc.ownerID == userID

/-- Embeds `hasGrantAccess` (service.go): `doc.OwnerID == userID`. -/
def hasGrantAccess (doc : Document) (userID : String) : Bool :=
  doc.ownerID == userID

/-- The service's typed errors (internal/models/errors.go), restricted to
the ones the document service returns. -/
inductive SvcErr
  | notFound
  | forbidden
  | internal
  | invalidParams
deriving DecidableEq, Repr

/-- Outcome of `cache.Get`: a string (empty string = miss) or a
connectivity error. -/
inductive CacheGetRes
  | ok (s : String)
  | fail
deriving DecidableEq, Repr

/-- Outcome of `docRepo.DocumentByID`: a document, `ErrDocumentNotFound`, or
another store error. -/
inductive StoreGetRes
  | ok (d : Document)
  | notFound
  | fail
deriving DecidableEq, Repr

/-- The collaborator outcomes one `documentMetaByID` call observes. -/
structure MetaEnv where
  cacheGet : CacheGetRes
  storeGet : StoreGetRes
  cacheSetOk : Bool
deriving DecidableEq, Repr

/-- What one `documentMetaByID` call produced: its result, whether the
metadata store was consulted, and the serialized value written to the cache
under the document ID (`none` when no cache write happened). -/
structure MetaOutcome where
  res : Except SvcErr Document
  storeConsulted : Bool
  cacheWrite : Option String
deriving Repr

/-- Embeds `documentMetaByID` (service.go). A cache error or an empty cache
string falls through to the metadata store; store `ErrDocumentNotFound`
propagates as `notFound`, any other store error becomes `internal`; on a
store hit the document is serialized and best-effort written to the cache.
A nonempty cache hit is deserialized, and a deserialization failure is
`internal` without consulting the store. -/
def documentMetaByID (env : MetaEnv) : MetaOutcome :=
  match env.cacheGet with
  | CacheGetRes.fail =>
    match env.storeGet with
    | StoreGetRes.notFound => ⟨Except.error SvcErr.notFound, true, none⟩
    | StoreGetRes.fail => ⟨Except.error SvcErr.internal, true, none⟩
    | StoreGetRes.ok doc =>
      ⟨Except.ok doc, true, if env.cacheSetOk then some (docToJSON doc) else none⟩
  | CacheGetRes.ok s =>
    if s = "" then
      match env.storeGet with
      | StoreGetRes.notFound => ⟨Except.error SvcErr.notFound, true, none⟩
      | StoreGetRes.fail => ⟨Except.error SvcErr.internal, true, none⟩
      | StoreGetRes.ok doc =>
        ⟨Except.ok doc, true, if env.cacheSetOk then some (docToJSON doc) else none⟩
    else
      match jsonToDoc s with
      | none => ⟨Except.error SvcErr.internal, false, none⟩
      | some doc => ⟨Except.ok doc, false, none⟩

/-- Decimal digit character. -/
def decChar (d : Nat) : Char := Char.ofNat (48 + d)

/-- The base-10 digits of `n`, least significant first; `fuel ≥ n` makes the
recursion total. -/
def natDigitsRev : Nat → Nat → List Nat
  | 0, _ => []
  | fuel + 1, n => if n = 0 then [] else (n % 10) :: natDigitsRev fuel (n / 10)

/-- The decimal rendering of a natural number, most significant digit first
(the form Go's `%v` verb prints a nonnegative `int` in). -/
def natDecData (n : Nat) : List Char :=
  if n = 0 then ['0'] else ((natDigitsRev n n).reverse.map decChar)

/-- The decimal rendering of a natural number as a string. -/
def natDec (n : Nat) : String := String.mk (natDecData n)

/-- Embeds the `ListDocuments` cache key (service.go):
`fmt.Sprintf("docs:%s:%s:%s:%s:%v", requester.Login, login, filter.Key,
filter.Value, filter.Limit)`. The limit is modelled as `Nat` because every
limit the handlers pass comes from `ParseLimit`, which clamps non-positive
values to 0. -/
def listCacheKey (requesterLogin ownerLogin filterKey filterValue : String)
    (limit : Nat) : String :=
  "docs:" ++ requesterLogin ++ ":" ++ ownerLogin ++ ":" ++ filterKey ++ ":" ++
    filterValue ++ ":" ++ natDec limit

/-- The side-effecting calls `UploadDocument` issues, in program order. -/
inductive UpAction
  | saveFile
  | deleteFile
  | createMeta
  | deleteMeta
  | persistGrants
  | cacheDel (key : String)
deriving DecidableEq, Repr

/-- The collaborator outcomes one `UploadDocument` call observes. The
outcomes of the compensating deletes and of the cache invalidations are
ignored by the code (logged only), so they do not appear. -/
structure UploadEnv where
  saveFileOk : Bool
  createOk : Bool
  grantOk : Bool
deriving DecidableEq, Repr

/-- Embeds `UploadDocument` (service.go), returning the result together with
the trace of store/blob/cache calls in program order. If `doc.IsFile`, the
blob is saved first; failure aborts with `internal`. Then metadata is
written; failure triggers a compensating blob delete (when `IsFile`) and
`internal`. Then, when `doc.Grants` is nonempty, grants are persisted;
failure triggers compensating deletes of metadata and blob and `internal`;
success triggers a best-effort cache `Del` of `"docs:"+grant` for each
grant. Finally the requester's own `"docs:"+login` key is deleted. -/
def uploadDocument (env : UploadEnv) (requesterLogin : String)
    (doc : Document) : Except SvcErr String × List UpAction :=
  if doc.isFile && !env.saveFileOk then
    (Except.error SvcErr.internal, [UpAction.saveFile])
  else
    let pre := if doc.isFile then [UpAction.saveFile] else []
    if !env.createOk then
      (Except.error SvcErr.internal,
        pre ++ [UpAction.createMeta] ++
          if doc.isFile then [UpAction.deleteFile] else [])
    else if !doc.grants.isEmpty then
      if !env.grantOk then
        (Except.error SvcErr.internal,
          pre ++ [UpAction.createMeta, UpAction.persistGrants,
            UpAction.deleteMeta] ++
            if doc.isFile then [UpAction.deleteFile] else [])
      else
        (Except.ok doc.id,
          pre ++ [UpAction.createMeta, UpAction.persistGrants] ++
            doc.grants.map (fun g => UpAction.cacheDel ("docs:" ++ g)) ++
            [UpAction.cacheDel ("docs:" ++ requesterLogin)])
    else
      (Except.ok doc.id,
        pre ++ [UpAction.createMeta,
          UpAction.cacheDel ("docs:" ++ requesterLogin)])

/-- A cache state, mapping keys to stored strings; the empty string is
"absent" (the redis wrapper returns the zero value on `redis.Nil`). -/
def CacheState := String → String

/-- Apply the cache deletions of an upload trace to a cache state; the other
actions do not touch the cache. -/
def applyActions (acts : List UpAction) (σ : CacheState) : CacheState :=
  match acts with
  | [] => σ
  | UpAction.cacheDel k :: rest =>
    applyActions rest (fun key => if key = k then ("") else σ key)
  | _ :: rest => applyActions rest σ

/-- Outcome of `docRepo.Delete` / `fileStorage.DeleteFile`. -/
inductive DelRes
  | ok
  | notFound
  | fail
deriving DecidableEq, Repr

/-- The collaborator outcomes one `DeleteDocument` call observes. -/
structure DeleteEnv where
  meta : MetaEnv
  metaDel : DelRes
  blobDel : DelRes
deriving DecidableEq, Repr

/-- Embeds `DeleteDocument` (service.go), returning the result and whether
the blob store's `DeleteFile` was invoked. Resolution errors propagate; a
non-owner gets `forbidden`; a metadata-delete `ErrDocumentNotFound` is
swallowed (idempotent delete) while any other metadata-delete error is
`internal` and aborts before the blob step; for a file-backed document a
blob `ErrDocumentNotFound` propagates as `notFound` and any other blob
error is `internal`. The cache `Del` between the two steps is best-effort
and its outcome is ignored. -/
def deleteDocument (env : DeleteEnv) (requesterID : String) :
    Except SvcErr Unit × Bool :=
  match (documentMetaByID env.meta).res with
  | Except.error e => (Except.error e, false)
  | Except.ok doc =>
    if !hasDeleteAccess doc requesterID then
      (Except.error SvcErr.forbidden, false)
    else
      match env.metaDel with
      | DelRes.fail => (Except.error SvcErr.internal, false)
      | _ =>
        if doc.isFile then
          match env.blobDel with
          | DelRes.ok => (Except.ok (), true)
          | DelRes.notFound => (Except.error SvcErr.notFound, true)
          | DelRes.fail => (Except.error SvcErr.internal, true)
        else (Except.ok (), false)

/-- Outcome of `fileStorage.LoadFile`. -/
inductive LoadRes
  | ok
  | notFound
  | fail
deriving DecidableEq, Repr

/-- The collaborator outcomes one `DocumentByID` call observes. -/
structure DocByIDEnv where
  meta : MetaEnv
  load : LoadRes
deriving DecidableEq, Repr

/-- Embeds `DocumentByID` (service.go), returning the result and whether the
blob store's `LoadFile` was invoked. Resolution errors propagate; a
requester without read access gets `forbidden` before any blob access; for
a file-backed document any `LoadFile` error (absence included) is
`internal`. -/
def documentByID (env : DocByIDEnv) (requesterID requesterLogin : String) :
    Except SvcErr Document × Bool :=
  match (documentMetaByID env.meta).res with
  | Except.error e => (Except.error e, false)
  | Except.ok doc =>
    if !hasReadAccess doc requesterID requesterLogin then
      (Except.error SvcErr.forbidden, false)
    else if doc.isFile then
      match env.load with
      | LoadRes.ok => (Except.ok doc, true)
      | _ => (Except.error SvcErr.internal, true)
    else (Except.ok doc, false)

/-- A row of the `users` table. -/
structure UserRow where
  id : String
  login : String
deriving DecidableEq, Repr

/-- A row of the `documents` table (the document record without its grant
list, which lives in the `grants` table). -/
structure DocRow where
  id : String
  ownerID : String
  name : String
  mime : String
  isFile : Bool
  isPublic : Bool
  path : String
  jsonData : String
  createdAt : String
deriving DecidableEq, Repr

/-- The relational state the document repository queries: `documents`,
`grants (document_id, user_id)`, and `users`. -/
structure RepoDB where
  documents : List DocRow
  grants : List (String × String)
  users : List UserRow
deriving DecidableEq, Repr

/-- Embeds `getGrants` (document repository): `SELECT u.login FROM grants g
INNER JOIN users u ON g.user_id = u.id WHERE g.document_id = $1`. -/
def getGrants (db : RepoDB) (docID : String) : List String :=
  (db.grants.filter (fun g => g.1 = docID)).flatMap
    (fun g => (db.users.filter (fun u => u.id = g.2)).map (fun u => u.login))

/-- The `models.Document` the repository materializes from a row: the row's
columns plus the logins from `getGrants`. -/
def materializeDoc (db : RepoDB) (d : DocRow) : Document :=
  { id := d.id, ownerID := d.ownerID, name := d.name, mime := d.mime,
    isFile := d.isFile, isPublic := d.isPublic, path := d.path,
    jsonData := d.jsonData, grants := getGrants db d.id,
    createdAt := d.createdAt }

/-- Embeds `models.DocumentFilter` (internal/models/document.go). The limit
is a `Nat` (see `listCacheKey`). -/
structure DocumentFilter where
  key : String
  value : String
  limit : Nat
deriving DecidableEq, Repr

/-- The `WHERE` visibility disjunct of `FilteredDocuments` (document
repository): `d.is_public = TRUE OR d.owner_id = $3 OR g.user_id = $3`,
with `$3` the requester ID and `g` the left-joined `grants` rows of the
document (a document with no grant rows joins a null `g.user_id`, which
never equals `$3`). -/
def storeVisible (db : RepoDB) (d : DocRow) (requesterID : String) : Prop :=
  d.isPublic = true ∨ d.ownerID = requesterID ∨
    ∃ g ∈ db.grants, g.1 = d.id ∧ g.2 = requesterID

instance (db : RepoDB) (d : DocRow) (requesterID : String) :
    Decidable (storeVisible db d requesterID) := by
  unfold storeVisible
  infer_instance

/-- The owner join and login filter of `FilteredDocuments`: `INNER JOIN
users u ON d.owner_id = u.id ... AND ($4 = '' OR u.login = $4)`. -/
def ownerJoinOK (db : RepoDB) (d : DocRow) (login : String) : Prop :=
  ∃ u ∈ db.users, u.id = d.ownerID ∧ (login = "" ∨ u.login = login)

instance (db : RepoDB) (d : DocRow) (login : String) :
    Decidable (ownerJoinOK db d login) := by
  unfold ownerJoinOK
  infer_instance

/-- The filter clause of `FilteredDocuments`: `($1 = 'name' AND d.name = $2)
OR ($1 = 'mime' AND d.mime = $2) OR ($1 = '' AND TRUE)`. -/
def filterClauseOK (d : DocRow) (filter : DocumentFilter) : Prop :=
  (filter.key = "name" ∧ d.name = filter.value) ∨
    (filter.key = "mime" ∧ d.mime = filter.value) ∨ filter.key = ""

instance (d : DocRow) (filter : DocumentFilter) :
    Decidable (filterClauseOK d filter) := by
  unfold filterClauseOK
  infer_instance

/-- Embeds `FilteredDocuments` (document repository): the document rows
satisfying the owner join, the visibility disjunct and the filter clause,
truncated to `limit` rows when `limit > 0`, each materialized with its
grant logins. The SQL's `ORDER BY` only permutes the result and the join
can only duplicate rows, neither of which affects membership, so the model
keeps the table order and one occurrence per row. -/
def FilteredDocuments (db : RepoDB) (login : String) (requesterID : String)
    (filter : DocumentFilter) : List Document :=
  let rows := db.documents.filter
    (fun d => decide (ownerJoinOK db d login) &&
      decide (storeVisible db d requesterID) &&
      decide (filterClauseOK d filter))
  let limited := if filter.limit > 0 then rows.take filter.limit else rows
  limited.map (materializeDoc db)

end FileServer

namespace FileServer

theorem mk_data (s : String) : String.mk s.data = s := by
  cases s
  rfl

theorem expectLit_append (lit rest : List Char) :
    expectLit lit (lit ++ rest) = some rest := by
  induction lit with
  | nil => simp [expectLit]
  | cons c cs ih => simp [expectLit, ih]

theorem expectLit_self (lit : List Char) : expectLit lit lit = some [] := by
  have h := expectLit_append lit []
  simpa using h

theorem parseStrBody_escape (s rest : List Char) :
    parseStrBody (escape s ++ '"' :: rest) = some (s, rest) := by
  induction s with
  | nil =>
    simp only [escape, List.nil_append]
    rw [parseStrBody.eq_def]
    simp
  | cons c cs ih =>
    by_cases h : c = '"' ∨ c = '\\'
    · simp only [escape, escChar, if_pos h, List.cons_append, List.nil_append,
        List.append_assoc]
      rw [parseStrBody.eq_def]
      simp [ih]
    · push_neg at h
      have hn : ¬(c = '"' ∨ c = '\\') := not_or.mpr h
      simp only [escape, escChar, if_neg hn, List.cons_append, List.nil_append,
        List.append_assoc]
      rw [parseStrBody.eq_def]
      simp [h.1, h.2, ih]

theorem parseStrTok_enc (s : String) (rest : List Char) :
    parseStrTok (encStrData s ++ rest) = some (s, rest) := by
  simp [encStrData, parseStrTok, List.cons_append, List.append_assoc,
    parseStrBody_escape, mk_data]

theorem parseBool_enc (b : Bool) (rest : List Char) :
    parseBool ((encBool b).data ++ rest) = some (b, rest) := by
  cases b
  · have h : parseBool ((("false").data : List Char) ++ rest) = some (false, rest) := by
      unfold parseBool
      have hne : expectLit (("true").data) ((("false").data : List Char) ++ rest) = none := rfl
      rw [hne, expectLit_append]
    exact h
  · have h : parseBool ((("true").data : List Char) ++ rest) = some (true, rest) := by
      unfold parseBool
      rw [expectLit_append]
    exact h

theorem parseItemsF_enc (l : List String) :
    ∀ (fuel : Nat) (rest : List Char), l ≠ [] → l.length ≤ fuel →
      parseItemsF fuel (encItemsData l ++ ']' :: rest) = some (l, rest) := by
  induction l with
  | nil => intro fuel rest h; exact absurd rfl h
  | cons s t ih =>
    intro fuel rest _ hf
    cases fuel with
    | zero => simp at hf
    | succ f =>
      cases t with
      | nil =>
        simp only [encItemsData, encStrData, List.cons_append, List.append_assoc,
          List.nil_append, List.singleton_append]
        rw [parseItemsF.eq_def]
        simp [parseStrBody_escape, mk_data]
      | cons t2 ts =>
        simp only [encItemsData, encStrData, List.cons_append, List.append_assoc,
          List.nil_append, List.singleton_append]
        have hlen : (t2 :: ts).length ≤ f := by
          simp only [List.length_cons] at hf ⊢
          omega
        have ihr := ih f rest (by simp) hlen
        simp only [encItemsData] at ihr
        rw [parseItemsF.eq_def]
        simp [parseStrBody_escape, mk_data, ihr]

theorem encItemsData_cons (s : String) (t : List String) :
    ∃ tail, encItemsData (s :: t) = '"' :: tail := by
  cases t with
  | nil => exact ⟨_, rfl⟩
  | cons t2 ts => exact ⟨_, rfl⟩

theorem encItemsData_length (l : List String) :
    l.length ≤ (encItemsData l).length := by
  induction l with
  | nil => simp [encItemsData]
  | cons s t ih =>
    cases t with
    | nil => simp [encItemsData, encStrData]
    | cons t2 ts =>
      simp only [encItemsData, encStrData] at *
      simp only [List.length_cons, List.length_append, List.length_singleton] at *
      omega

theorem parseStrArr_enc (l : List String) (rest : List Char) :
    parseStrArr (encArrData l ++ rest) = some (l, rest) := by
  cases l with
  | nil => simp [encArrData, parseStrArr]
  | cons s t =>
    obtain ⟨tail, htail⟩ := encItemsData_cons s t
    have hne : (s :: t) ≠ ([] : List String) := by simp
    have hstep : encArrData (s :: t) ++ rest =
        '[' :: (encItemsData (s :: t) ++ ']' :: rest) := by
      simp [encArrData, List.append_assoc]
    rw [hstep, htail]
    have hfuel : (s :: t).length ≤ (('"' :: tail) ++ ']' :: rest).length := by
      have h1 := encItemsData_length (s :: t)
      rw [htail] at h1
      simp only [List.length_cons, List.length_append] at *
      omega
    have hmain := parseItemsF_enc (s :: t) ((('"' :: tail) ++ ']' :: rest).length)
      rest hne hfuel
    rw [htail] at hmain
    simpa [parseStrArr, List.cons_append] using hmain
theorem encStr_data (s : String) : (encStr s).data = encStrData s := rfl

theorem encArr_data (l : List String) : (encArr l).data = encArrData l := rfl

theorem docToJSON_length_ne_zero (d : Document) : (docToJSON d).length ≠ 0 := by
  have h6 : (("\x7b\"id\":" : String)).length = 6 := rfl
  simp only [docToJSON, String.length_append, h6]
  omega

theorem jsonToDoc_docToJSON (d : Document) : jsonToDoc (docToJSON d) = some d := by
  rw [jsonToDoc, if_neg (docToJSON_length_ne_zero d)]
  simp only [docToJSON, String.data_append, encStr_data, encArr_data,
    List.append_assoc]
  simp only [parseDoc, expectLit_append, parseStrTok_enc, parseBool_enc,
    parseStrArr_enc, expectLit_self]
  simp

theorem hasReadAccess_iff (doc : Document) (userID userLogin : String) :
    hasReadAccess doc userID userLogin = true ↔
      (doc.isPublic = true ∨ doc.ownerID = userID ∨ userLogin ∈ doc.grants) := by
  simp [hasReadAccess, Bool.or_eq_true, or_assoc]

/-- C1: read access is granted iff the document is public, or the requester
is the owner (matched by ID), or the requester's login is a member of the
grant list (matched by login). -/
theorem c1_read_access (doc : Document) (userID userLogin : String) :
    hasReadAccess doc userID userLogin = true ↔
      (doc.isPublic = true ∨ doc.ownerID = userID ∨ userLogin ∈ doc.grants) :=
  hasReadAccess_iff doc userID userLogin

/-- C2: delete access and grant-management access both hold iff the
requester's ID equals the document's owner ID; in particular both are false
for any non-owner requester, even one whose login is in the grant list. -/
theorem c2_delete_grant_access (doc : Document) (userID userLogin : String) :
    ((hasDeleteAccess doc userID = true ∧ hasGrantAccess doc userID = true) ↔
        doc.ownerID = userID) ∧
      (userLogin ∈ doc.grants → doc.ownerID ≠ userID →
        hasDeleteAccess doc userID = false ∧ hasGrantAccess doc userID = false) := by
  constructor
  · simp [hasDeleteAccess, hasGrantAccess]
  · intro hmem hne
    simp [hasDeleteAccess, hasGrantAccess, hne]

/-- Witness for C2 at a concrete document and non-owner requester whose
login is granted. -/
theorem c2_delete_grant_access_witness :
    let d : Document :=
      { id := "d1", ownerID := "u1", name := "n", mime := "m", isFile := false,
        isPublic := false, path := "", jsonData := "", grants := ["bob"],
        createdAt := "t" }
    hasDeleteAccess d ("u2") = false ∧ hasGrantAccess d ("u2") = false :=
  (c2_delete_grant_access
    { id := "d1", ownerID := "u1", name := "n", mime := "m", isFile := false,
      isPublic := false, path := "", jsonData := "", grants := ["bob"],
      createdAt := "t" } "u2" "bob").2 (by decide) (by decide)

end FileServer

namespace FileServer

/-- C7: in single-document resolution, a cache error or empty cache string
consults the metadata store, propagating store `notFound` as `notFound` and
any other store error as `internal`; a nonempty cache string that fails to
deserialize yields `internal` without consulting the store. -/
theorem c7_meta_resolution (env : MetaEnv) :
    ((env.cacheGet = CacheGetRes.fail ∨ env.cacheGet = CacheGetRes.ok ("")) →
      (documentMetaByID env).storeConsulted = true ∧
      (env.storeGet = StoreGetRes.notFound →
        (documentMetaByID env).res = Except.error SvcErr.notFound) ∧
      (env.storeGet = StoreGetRes.fail →
        (documentMetaByID env).res = Except.error SvcErr.internal)) ∧
    (∀ s : String, env.cacheGet = CacheGetRes.ok s → s ≠ "" →
      jsonToDoc s = none →
      (documentMetaByID env).res = Except.error SvcErr.internal ∧
      (documentMetaByID env).storeConsulted = false) := by
  constructor
  · intro hmiss
    have hred : documentMetaByID env =
        (match env.storeGet with
          | StoreGetRes.notFound => ⟨Except.error SvcErr.notFound, true, none⟩
          | StoreGetRes.fail => ⟨Except.error SvcErr.internal, true, none⟩
          | StoreGetRes.ok doc =>
            ⟨Except.ok doc, true,
              if env.cacheSetOk then some (docToJSON doc) else none⟩) := by
      rcases hmiss with h | h <;> simp [documentMetaByID, h]
    refine ⟨?_, ?_, ?_⟩
    · rw [hred]; cases env.storeGet <;> rfl
    · intro h; rw [hred, h]
    · intro h; rw [hred, h]
  · intro s hok hne hbad
    constructor <;> simp [documentMetaByID, hok, hne, hbad]

/-- Witness for C7: a store miss propagates as `notFound`; a corrupt
nonempty cache hit is `internal` without a store consultation. -/
theorem c7_meta_resolution_witness :
    (documentMetaByID ⟨CacheGetRes.ok (""), StoreGetRes.notFound, true⟩).res =
        Except.error SvcErr.notFound ∧
      (documentMetaByID
          ⟨CacheGetRes.ok ("bad"), StoreGetRes.notFound, true⟩).res =
        Except.error SvcErr.internal ∧
      (documentMetaByID
          ⟨CacheGetRes.ok ("bad"), StoreGetRes.notFound, true⟩).storeConsulted =
        false :=
  ⟨((c7_meta_resolution ⟨CacheGetRes.ok (""), StoreGetRes.notFound, true⟩).1
      (Or.inr rfl)).2.1 rfl,
    ((c7_meta_resolution ⟨CacheGetRes.ok ("bad"), StoreGetRes.notFound, true⟩).2
      "bad" rfl (by decide) (by decide)).1,
    ((c7_meta_resolution ⟨CacheGetRes.ok ("bad"), StoreGetRes.notFound, true⟩).2
      "bad" rfl (by decide) (by decide)).2⟩

/-- C9: a resolution that misses the cache, reads document `d` from the
store and successfully writes the serialization `v` to the cache, followed
by a second resolution whose cache read returns `v`, returns `d` both
times — whatever the store outcome of the second call. -/
theorem c9_resolve_idempotent (d : Document) (env1 env2 : MetaEnv) (v : String)
    (h1 : env1.cacheGet = CacheGetRes.fail ∨ env1.cacheGet = CacheGetRes.ok (""))
    (h2 : env1.storeGet = StoreGetRes.ok d)
    (h3 : env1.cacheSetOk = true)
    (h4 : (documentMetaByID env1).cacheWrite = some v)
    (h5 : env2.cacheGet = CacheGetRes.ok v) :
    (documentMetaByID env1).res = Except.ok d ∧
      (documentMetaByID env2).res = Except.ok d := by
  have hred : documentMetaByID env1 =
      ⟨Except.ok d, true, some (docToJSON d)⟩ := by
    rcases h1 with h | h <;> simp [documentMetaByID, h, h2, h3]
  have hv : v = docToJSON d := by
    rw [hred] at h4
    exact (Option.some.inj h4).symm
  refine ⟨by rw [hred], ?_⟩
  have hne : docToJSON d ≠ "" := by
    intro hcon
    exact docToJSON_length_ne_zero d (by rw [hcon]; rfl)
  simp [documentMetaByID, h5, hv, hne, jsonToDoc_docToJSON]

/-- Witness for C9 at a concrete document whose name and grants exercise
the escaping, with the store unreachable on the second call. -/
theorem c9_resolve_idempotent_witness :
    (documentMetaByID
        ⟨CacheGetRes.ok (""), StoreGetRes.ok
          { id := "d1", ownerID := "u1", name := "a\"b\\c", mime := "m",
            isFile := true, isPublic := false, path := "p", jsonData := "",
            grants := ["alice", "bob"], createdAt := "t1" }, true⟩).res =
      Except.ok
        { id := "d1", ownerID := "u1", name := "a\"b\\c", mime := "m",
          isFile := true, isPublic := false, path := "p", jsonData := "",
          grants := ["alice", "bob"], createdAt := "t1" } ∧
    (documentMetaByID
        ⟨CacheGetRes.ok (docToJSON
          { id := "d1", ownerID := "u1", name := "a\"b\\c", mime := "m",
            isFile := true, isPublic := false, path := "p", jsonData := "",
            grants := ["alice", "bob"], createdAt := "t1" }),
          StoreGetRes.fail, true⟩).res =
      Except.ok
        { id := "d1", ownerID := "u1", name := "a\"b\\c", mime := "m",
          isFile := true, isPublic := false, path := "p", jsonData := "",
          grants := ["alice", "bob"], createdAt := "t1" } :=
  c9_resolve_idempotent
    { id := "d1", ownerID := "u1", name := "a\"b\\c", mime := "m",
      isFile := true, isPublic := false, path := "p", jsonData := "",
      grants := ["alice", "bob"], createdAt := "t1" }
    ⟨CacheGetRes.ok (""), StoreGetRes.ok
      { id := "d1", ownerID := "u1", name := "a\"b\\c", mime := "m",
        isFile := true, isPublic := false, path := "p", jsonData := "",
        grants := ["alice", "bob"], createdAt := "t1" }, true⟩
    ⟨CacheGetRes.ok (docToJSON
      { id := "d1", ownerID := "u1", name := "a\"b\\c", mime := "m",
        isFile := true, isPublic := false, path := "p", jsonData := "",
        grants := ["alice", "bob"], createdAt := "t1" }),
      StoreGetRes.fail, true⟩
    (docToJSON
      { id := "d1", ownerID := "u1", name := "a\"b\\c", mime := "m",
        isFile := true, isPublic := false, path := "p", jsonData := "",
        grants := ["alice", "bob"], createdAt := "t1" })
    (Or.inr rfl) rfl rfl rfl rfl

end FileServer

namespace FileServer

/-- C6: upload rolls back in reverse creation order under partial failure:
a blob-save failure (file-backed) returns `internal` with no metadata and
no cache write; a metadata-write failure returns `internal` after a
compensating blob delete (when file-backed) — the code discards the
compensating delete's own error, so the result does not depend on it; a
grant-persistence failure returns `internal` after compensating deletes of
the metadata record and then the blob (when file-backed). -/
theorem c6_upload_rollback (env : UploadEnv) (login : String) (doc : Document) :
    (doc.isFile = true → env.saveFileOk = false →
      uploadDocument env login doc =
        (Except.error SvcErr.internal, [UpAction.saveFile])) ∧
    (env.createOk = false → (doc.isFile = true → env.saveFileOk = true) →
      uploadDocument env login doc =
        (Except.error SvcErr.internal,
          (if doc.isFile then [UpAction.saveFile] else []) ++
            [UpAction.createMeta] ++
            (if doc.isFile then [UpAction.deleteFile] else []))) ∧
    (doc.grants ≠ [] → env.createOk = true →
      (doc.isFile = true → env.saveFileOk = true) → env.grantOk = false →
      uploadDocument env login doc =
        (Except.error SvcErr.internal,
          (if doc.isFile then [UpAction.saveFile] else []) ++
            [UpAction.createMeta, UpAction.persistGrants, UpAction.deleteMeta] ++
            (if doc.isFile then [UpAction.deleteFile] else []))) := by
  refine ⟨fun hif hsv => ?_, fun hcr hsv => ?_, fun hg hcr hsv hgr => ?_⟩
  · simp [uploadDocument, hif, hsv]
  · cases hif : doc.isFile with
    | false => simp [uploadDocument, hif, hcr]
    | true => simp [uploadDocument, hif, hsv hif, hcr]
  · cases hif : doc.isFile with
    | false => simp [uploadDocument, hif, hcr, hg, hgr]
    | true => simp [uploadDocument, hif, hsv hif, hcr, hg, hgr]

/-- Witness for C6: a grant-persistence failure on a file-backed upload
rolls back metadata and blob, in that order. -/
theorem c6_upload_rollback_witness :
    uploadDocument ⟨true, true, false⟩ "bob"
        { id := "d1", ownerID := "u1", name := "n", mime := "m",
          isFile := true, isPublic := false, path := "p", jsonData := "",
          grants := ["alice"], createdAt := "t" } =
      (Except.error SvcErr.internal,
        [UpAction.saveFile, UpAction.createMeta, UpAction.persistGrants,
          UpAction.deleteMeta, UpAction.deleteFile]) :=
  ((c6_upload_rollback ⟨true, true, false⟩ "bob"
      { id := "d1", ownerID := "u1", name := "n", mime := "m",
        isFile := true, isPublic := false, path := "p", jsonData := "",
        grants := ["alice"], createdAt := "t" }).2.2
    (by decide) rfl (fun _ => rfl) rfl).trans rfl

/-- C8: for a requester with delete access, a metadata-delete `notFound` is
swallowed (idempotent delete), any other metadata-delete error is
`internal` without touching the blob; for a file-backed document a blob
`notFound` propagates as `notFound` and any other blob error is `internal`;
the delete succeeds exactly when neither branch propagated an error. -/
theorem c8_delete_semantics (env : DeleteEnv) (rid : String) (doc : Document)
    (hres : (documentMetaByID env.meta).res = Except.ok doc)
    (hacc : hasDeleteAccess doc rid = true) :
    (env.metaDel = DelRes.fail →
      deleteDocument env rid = (Except.error SvcErr.internal, false)) ∧
    (env.metaDel ≠ DelRes.fail → doc.isFile = false →
      deleteDocument env rid = (Except.ok (), false)) ∧
    (env.metaDel ≠ DelRes.fail → doc.isFile = true →
      (env.blobDel = DelRes.notFound →
        deleteDocument env rid = (Except.error SvcErr.notFound, true)) ∧
      (env.blobDel = DelRes.fail →
        deleteDocument env rid = (Except.error SvcErr.internal, true)) ∧
      (env.blobDel = DelRes.ok →
        deleteDocument env rid = (Except.ok (), true))) ∧
    ((deleteDocument env rid).1 = Except.ok () ↔
      env.metaDel ≠ DelRes.fail ∧
        (doc.isFile = true → env.blobDel = DelRes.ok)) := by
  cases hmd : env.metaDel <;> cases hif : doc.isFile <;>
    cases hbd : env.blobDel <;>
    simp [deleteDocument, hres, hacc, hmd, hif, hbd]

/-- Witness for C8: with delete access, a swallowed metadata `notFound` on a
non-file document still succeeds, concretely. -/
theorem c8_delete_semantics_witness :
    deleteDocument
        ⟨⟨CacheGetRes.fail, StoreGetRes.ok
          { id := "d1", ownerID := "u1", name := "n", mime := "m",
            isFile := false, isPublic := false, path := "", jsonData := "",
            grants := [], createdAt := "t" }, true⟩,
          DelRes.notFound, DelRes.fail⟩ "u1" = (Except.ok (), false) :=
  (c8_delete_semantics
      ⟨⟨CacheGetRes.fail, StoreGetRes.ok
        { id := "d1", ownerID := "u1", name := "n", mime := "m",
          isFile := false, isPublic := false, path := "", jsonData := "",
          grants := [], createdAt := "t" }, true⟩,
        DelRes.notFound, DelRes.fail⟩ "u1"
      { id := "d1", ownerID := "u1", name := "n", mime := "m",
        isFile := false, isPublic := false, path := "", jsonData := "",
        grants := [], createdAt := "t" }
      rfl (by decide)).2.1 (by decide) rfl

/-- C10: when resolution yields a document the requester may not read,
`DocumentByID` returns `forbidden` without invoking `LoadFile`; `LoadFile`
is invoked only after the access check succeeds and only for file-backed
documents, and any `LoadFile` failure (absence included) is `internal`,
never `notFound`. -/
theorem c10_doc_by_id_access (env : DocByIDEnv) (rid rlogin : String)
    (doc : Document)
    (hres : (documentMetaByID env.meta).res = Except.ok doc) :
    (hasReadAccess doc rid rlogin = false →
      documentByID env rid rlogin = (Except.error SvcErr.forbidden, false)) ∧
    ((documentByID env rid rlogin).2 = true →
      hasReadAccess doc rid rlogin = true ∧ doc.isFile = true) ∧
    (hasReadAccess doc rid rlogin = true → doc.isFile = true →
      env.load ≠ LoadRes.ok →
      documentByID env rid rlogin = (Except.error SvcErr.internal, true)) := by
  cases hacc : hasReadAccess doc rid rlogin <;> cases hif : doc.isFile <;>
    cases hl : env.load <;> simp [documentByID, hres, hacc, hif, hl]

/-- Witness for C10: a missing blob for a readable file-backed document is
reported as `internal`, not `notFound`. -/
theorem c10_doc_by_id_access_witness :
    documentByID
        ⟨⟨CacheGetRes.fail, StoreGetRes.ok
          { id := "d1", ownerID := "u1", name := "n", mime := "m",
            isFile := true, isPublic := true, path := "p", jsonData := "",
            grants := [], createdAt := "t" }, true⟩, LoadRes.notFound⟩
        "u2" "bob" = (Except.error SvcErr.internal, true) :=
  (c10_doc_by_id_access
      ⟨⟨CacheGetRes.fail, StoreGetRes.ok
        { id := "d1", ownerID := "u1", name := "n", mime := "m",
          isFile := true, isPublic := true, path := "p", jsonData := "",
          grants := [], createdAt := "t" }, true⟩, LoadRes.notFound⟩
      "u2" "bob"
      { id := "d1", ownerID := "u1", name := "n", mime := "m",
        isFile := true, isPublic := true, path := "p", jsonData := "",
        grants := [], createdAt := "t" }
      rfl).2.2 (by decide) rfl (by decide)

end FileServer

namespace FileServer

theorem grantRow_iff_login_mem (db : RepoDB) (docID rid rlogin : String)
    (hreq : UserRow.mk rid rlogin ∈ db.users)
    (hloginj : ∀ u1 ∈ db.users, ∀ u2 ∈ db.users,
      u1.login = u2.login → u1.id = u2.id) :
    (∃ g ∈ db.grants, g.1 = docID ∧ g.2 = rid) ↔
      rlogin ∈ getGrants db docID := by
  simp only [getGrants, List.mem_flatMap, List.mem_filter, List.mem_map,
    decide_eq_true_eq]
  constructor
  · rintro ⟨g, hg, h1, h2⟩
    exact ⟨g, ⟨hg, h1⟩, ⟨rid, rlogin⟩, ⟨hreq, h2.symm⟩, rfl⟩
  · rintro ⟨g, ⟨hg, h1⟩, u, ⟨hu, huid⟩, hul⟩
    have hid : u.id = rid := hloginj u hu ⟨rid, rlogin⟩ hreq (by simpa using hul)
    exact ⟨g, hg, h1, by rw [← huid, hid]⟩

/-- C3: under a well-formed users table (the requester is a registered user
and logins determine user IDs), every document the store's filtered query
returns satisfies the read-access predicate for that requester, and the
store-layer visibility disjunct is extensionally the same predicate as
`hasReadAccess` on every document row. -/
theorem c3_filtered_documents_access (db : RepoDB) (login rid rlogin : String)
    (filter : DocumentFilter)
    (hreq : UserRow.mk rid rlogin ∈ db.users)
    (hloginj : ∀ u1 ∈ db.users, ∀ u2 ∈ db.users,
      u1.login = u2.login → u1.id = u2.id) :
    (∀ doc ∈ FilteredDocuments db login rid filter,
      hasReadAccess doc rid rlogin = true) ∧
    (∀ d ∈ db.documents,
      (storeVisible db d rid ↔
        hasReadAccess (materializeDoc db d) rid rlogin = true)) := by
  have hiff : ∀ d : DocRow,
      storeVisible db d rid ↔
        hasReadAccess (materializeDoc db d) rid rlogin = true := by
    intro d
    rw [hasReadAccess_iff]
    simp only [materializeDoc, storeVisible]
    constructor
    · rintro (h | h | h)
      · exact Or.inl h
      · exact Or.inr (Or.inl h)
      · exact Or.inr (Or.inr
          ((grantRow_iff_login_mem db d.id rid rlogin hreq hloginj).mp h))
    · rintro (h | h | h)
      · exact Or.inl h
      · exact Or.inr (Or.inl h)
      · exact Or.inr (Or.inr
          ((grantRow_iff_login_mem db d.id rid rlogin hreq hloginj).mpr h))
  refine ⟨?_, fun d _ => hiff d⟩
  intro doc hdoc
  simp only [FilteredDocuments, List.mem_map] at hdoc
  obtain ⟨d, hd, rfl⟩ := hdoc
  have hd2 : d ∈ db.documents.filter
      (fun d => decide (ownerJoinOK db d login) &&
        decide (storeVisible db d rid) &&
        decide (filterClauseOK d filter)) := by
    by_cases hlim : filter.limit > 0
    · rw [if_pos hlim] at hd
      exact List.take_subset _ _ hd
    · rw [if_neg hlim] at hd
      exact hd
  rw [List.mem_filter] at hd2
  have hvis : storeVisible db d rid := by
    have hb := hd2.2
    rw [Bool.and_eq_true, Bool.and_eq_true] at hb
    exact of_decide_eq_true hb.1.2
  exact (hiff d).mp hvis

/-- Witness for C3 on a concrete database: the requester `bob` is granted
document `d1` by a grants-table row keyed by his user ID, and the
materialized document passes `hasReadAccess` via his login. -/
theorem c3_filtered_documents_access_witness :
    hasReadAccess
        (materializeDoc
          ⟨[⟨"d1", "u1", "n", "m", false, false, "", "", "t"⟩],
            [("d1", "u2")],
            [⟨"u1", "alice"⟩, ⟨"u2", "bob"⟩]⟩
          ⟨"d1", "u1", "n", "m", false, false, "", "", "t"⟩)
        "u2" "bob" = true :=
  ((c3_filtered_documents_access
      ⟨[⟨"d1", "u1", "n", "m", false, false, "", "", "t"⟩],
        [("d1", "u2")],
        [⟨"u1", "alice"⟩, ⟨"u2", "bob"⟩]⟩
      "" "u2" "bob" ⟨"", "", 0⟩ (by decide) (by decide)).2
    ⟨"d1", "u1", "n", "m", false, false, "", "", "t"⟩ (by decide)).mp
    (Or.inr (Or.inr ⟨("d1", "u2"), by decide, rfl, rfl⟩))

end FileServer

namespace FileServer

theorem natDigitsRev_zero (fuel : Nat) : natDigitsRev fuel 0 = [] := by
  cases fuel <;> simp [natDigitsRev]

theorem natDigitsRev_eq_nil (fuel n : Nat) (hle : n ≤ fuel)
    (h : natDigitsRev fuel n = []) : n = 0 := by
  cases fuel with
  | zero => omega
  | succ f =>
    by_cases hn : n = 0
    · exact hn
    · rw [natDigitsRev, if_neg hn] at h
      cases h

theorem natDigitsRev_inj (fuel1 : Nat) :
    ∀ (n1 n2 fuel2 : Nat), n1 ≤ fuel1 → n2 ≤ fuel2 →
      natDigitsRev fuel1 n1 = natDigitsRev fuel2 n2 → n1 = n2 := by
  induction fuel1 with
  | zero =>
    intro n1 n2 fuel2 h1 h2 heq
    have hn1 : n1 = 0 := by omega
    subst hn1
    rw [natDigitsRev] at heq
    exact (natDigitsRev_eq_nil fuel2 n2 h2 heq.symm).symm
  | succ f ih =>
    intro n1 n2 fuel2 h1 h2 heq
    by_cases hn1 : n1 = 0
    · subst hn1
      rw [natDigitsRev_zero] at heq
      exact (natDigitsRev_eq_nil fuel2 n2 h2 heq.symm).symm
    · by_cases hn2 : n2 = 0
      · subst hn2
        rw [natDigitsRev_zero] at heq
        have hc := natDigitsRev_eq_nil (f + 1) n1 h1 heq
        omega
      · cases fuel2 with
        | zero => omega
        | succ f2 =>
          rw [natDigitsRev, if_neg hn1, natDigitsRev, if_neg hn2] at heq
          have hhead : n1 % 10 = n2 % 10 := (List.cons.inj heq).1
          have htail : natDigitsRev f (n1 / 10) = natDigitsRev f2 (n2 / 10) :=
            (List.cons.inj heq).2
          have hq : n1 / 10 = n2 / 10 := by
            refine ih (n1 / 10) (n2 / 10) f2 ?_ ?_ htail
            · have : n1 / 10 < n1 := Nat.div_lt_self (by omega) (by omega)
              omega
            · have : n2 / 10 < n2 := Nat.div_lt_self (by omega) (by omega)
              omega
          omega

theorem natDigitsRev_lt10 (fuel : Nat) :
    ∀ (n d : Nat), d ∈ natDigitsRev fuel n → d < 10 := by
  induction fuel with
  | zero => intro n d h; cases h
  | succ f ih =>
    intro n d h
    by_cases hn : n = 0
    · rw [hn, natDigitsRev_zero] at h
      cases h
    · rw [natDigitsRev, if_neg hn] at h
      rcases List.mem_cons.mp h with h | h
      · subst h
        exact Nat.mod_lt n (by omega)
      · exact ih (n / 10) d h

theorem decChar_inj10 :
    ∀ d1, d1 < 10 → ∀ d2, d2 < 10 → decChar d1 = decChar d2 → d1 = d2 := by
  decide

theorem map_decChar_inj :
    ∀ (l1 l2 : List Nat), (∀ x ∈ l1, x < 10) → (∀ x ∈ l2, x < 10) →
      l1.map decChar = l2.map decChar → l1 = l2 := by
  intro l1
  induction l1 with
  | nil =>
    intro l2 _ _ h
    cases l2 with
    | nil => rfl
    | cons b bs => cases h
  | cons a as ih =>
    intro l2 hb1 hb2 h
    cases l2 with
    | nil => cases h
    | cons b bs =>
      simp only [List.map_cons, List.cons.injEq] at h
      have ha : a = b :=
        decChar_inj10 a (hb1 a (by simp)) b (hb2 b (by simp)) h.1
      have has : as = bs :=
        ih bs (fun x hx => hb1 x (by simp [hx]))
          (fun x hx => hb2 x (by simp [hx])) h.2
      rw [ha, has]

theorem decChar_zero_of (d : Nat) (hd : d < 10) (h : decChar d = '0') :
    d = 0 := by
  revert h
  revert hd
  revert d
  decide

theorem natDecData_singleton_zero (n : Nat) (hn : n ≠ 0)
    (h : natDecData n = ['0']) : False := by
  rw [natDecData, if_neg hn] at h
  cases hrev : (natDigitsRev n n).reverse with
  | nil =>
    rw [hrev] at h
    cases h
  | cons d ds =>
    rw [hrev] at h
    simp only [List.map_cons, List.cons.injEq] at h
    have hmem : d ∈ natDigitsRev n n := by
      have : d ∈ (natDigitsRev n n).reverse := by rw [hrev]; simp
      simpa using this
    have hd10 : d < 10 := natDigitsRev_lt10 n n d hmem
    have hd0 : d = 0 := decChar_zero_of d hd10 h.1
    have hds : ds = [] := by
      cases ds with
      | nil => rfl
      | cons e es => cases h.2
    have hsingle : natDigitsRev n n = [d] := by
      have : (natDigitsRev n n).reverse = [d] := by rw [hrev, hds]
      have h2 := congrArg List.reverse this
      simpa using h2
    cases hn2 : n with
    | zero => exact hn hn2
    | succ m =>
      rw [hn2] at hsingle
      rw [natDigitsRev, if_neg (by omega : ¬(m + 1 = 0))] at hsingle
      simp only [List.cons.injEq] at hsingle
      have hmod : (m + 1) % 10 = 0 := by rw [hsingle.1, hd0]
      have hdiv : (m + 1) / 10 = 0 := by
        refine natDigitsRev_eq_nil m ((m + 1) / 10) ?_ hsingle.2
        have : (m + 1) / 10 < m + 1 := Nat.div_lt_self (by omega) (by omega)
        omega
      omega

theorem natDecData_inj (m n : Nat) (h : natDecData m = natDecData n) :
    m = n := by
  by_cases hm : m = 0
  · by_cases hn : n = 0
    · omega
    · subst hm
      have h0 : natDecData 0 = ['0'] := rfl
      rw [h0] at h
      exact absurd h.symm (fun hc => natDecData_singleton_zero n hn hc)
  · by_cases hn : n = 0
    · subst hn
      have h0 : natDecData 0 = ['0'] := rfl
      rw [h0] at h
      exact absurd h (fun hc => natDecData_singleton_zero m hm hc)
    · rw [natDecData, if_neg hm, natDecData, if_neg hn] at h
      have hrev : (natDigitsRev m m).reverse = (natDigitsRev n n).reverse :=
        map_decChar_inj _ _
          (fun x hx => natDigitsRev_lt10 m m x (by simpa using hx))
          (fun x hx => natDigitsRev_lt10 n n x (by simpa using hx)) h
      have hdig : natDigitsRev m m = natDigitsRev n n := by
        have h2 := congrArg List.reverse hrev
        simpa using h2
      exact natDigitsRev_inj m m n n (Nat.le_refl m) (Nat.le_refl n) hdig

theorem colon_not_mem_natDecData (n : Nat) : ':' ∉ natDecData n := by
  intro hmem
  rw [natDecData] at hmem
  by_cases hn : n = 0
  · rw [if_pos hn] at hmem
    simp at hmem
  · rw [if_neg hn] at hmem
    rcases List.mem_map.mp hmem with ⟨d, hd, hchar⟩
    have hd10 : d < 10 := natDigitsRev_lt10 n n d (by simpa using hd)
    have hgen : ∀ x, x < 10 → decChar x ≠ ':' := by decide
    exact hgen d hd10 hchar

theorem colon_split :
    ∀ (a c b d2 : List Char), ':' ∉ a → ':' ∉ c →
      a ++ ':' :: b = c ++ ':' :: d2 → a = c ∧ b = d2 := by
  intro a
  induction a with
  | nil =>
    intro c b d2 _ hc h
    cases c with
    | nil => simpa using h
    | cons c1 cs =>
      simp only [List.nil_append, List.cons_append, List.cons.injEq] at h
      exact absurd (h.1.symm ▸ List.mem_cons_self c1 cs) (h.1 ▸ hc)
  | cons a1 as ih =>
    intro c b d2 ha hc h
    cases c with
    | nil =>
      simp only [List.cons_append, List.nil_append, List.cons.injEq] at h
      exact absurd (h.1 ▸ List.mem_cons_self a1 as) (h.1 ▸ ha)
    | cons c1 cs =>
      simp only [List.cons_append, List.cons.injEq] at h
      have hrec := ih cs b d2 (fun hx => ha (List.mem_cons_of_mem a1 hx))
        (fun hx => hc (List.mem_cons_of_mem c1 hx)) h.2
      exact ⟨by rw [h.1, hrec.1], hrec.2⟩

theorem natDec_data (n : Nat) : (natDec n).data = natDecData n := rfl

end FileServer

namespace FileServer

/-- C4 counterexample: an upload whose grant persistence succeeds deletes
only the flat keys `docs:<grant>` and `docs:<requesterLogin>`; a list-cache
entry keyed by the five-component `listDocuments` shape for the granted
login `alice` survives the upload's invalidation untouched. -/
theorem c4_counterexample :
    (uploadDocument ⟨true, true, true⟩ "bob"
        { id := "d1", ownerID := "u1", name := "n", mime := "m",
          isFile := false, isPublic := false, path := "", jsonData := "",
          grants := ["alice"], createdAt := "t" }).1 = Except.ok ("d1") ∧
    UpAction.cacheDel (listCacheKey ("alice") ("") ("") ("") 0) ∉
      (uploadDocument ⟨true, true, true⟩ "bob"
        { id := "d1", ownerID := "u1", name := "n", mime := "m",
          isFile := false, isPublic := false, path := "", jsonData := "",
          grants := ["alice"], createdAt := "t" }).2 ∧
    applyActions
      (uploadDocument ⟨true, true, true⟩ "bob"
        { id := "d1", ownerID := "u1", name := "n", mime := "m",
          isFile := false, isPublic := false, path := "", jsonData := "",
          grants := ["alice"], createdAt := "t" }).2
      (fun _ => "cached") (listCacheKey ("alice") ("") ("") ("") 0) = "cached" :=
  ⟨rfl, by decide, by decide⟩

/-- C4 (amended): on successful grant persistence, the upload's invalidation
step deletes, for each value `g` in the document's Grants, the fixed-prefix
per-user key `docs:<g>` (the per-user key shape of the external-interface
contract), not a key of the five-component list shape. -/
theorem c4_amended_grant_invalidation (env : UploadEnv) (login : String)
    (doc : Document)
    (hsv : doc.isFile = true → env.saveFileOk = true)
    (hcr : env.createOk = true) (hgr : env.grantOk = true) :
    ∀ g ∈ doc.grants,
      UpAction.cacheDel ("docs:" ++ g) ∈ (uploadDocument env login doc).2 := by
  intro g hg
  have hne : doc.grants.isEmpty = false := by
    cases hgl : doc.grants with
    | nil => rw [hgl] at hg; cases hg
    | cons a l => simp
  cases hif : doc.isFile with
  | false =>
    simp only [uploadDocument, hif, hcr, hne, hgr, Bool.false_and,
      Bool.not_true, Bool.not_false, if_neg, if_pos, Bool.and_false]
    simp [List.mem_append, List.mem_map]
    exact Or.inl ⟨g, hg, rfl⟩
  | true =>
    simp only [uploadDocument, hif, hsv hif, hcr, hne, hgr, Bool.not_true,
      Bool.and_false]
    simp [List.mem_append, List.mem_map]
    exact Or.inl ⟨g, hg, rfl⟩

/-- Witness for the amended C4 at a concrete successful upload. -/
theorem c4_amended_grant_invalidation_witness :
    UpAction.cacheDel ("docs:" ++ "alice") ∈
      (uploadDocument ⟨true, true, true⟩ "bob"
        { id := "d1", ownerID := "u1", name := "n", mime := "m",
          isFile := false, isPublic := false, path := "", jsonData := "",
          grants := ["alice"], createdAt := "t" }).2 :=
  c4_amended_grant_invalidation ⟨true, true, true⟩ "bob"
    { id := "d1", ownerID := "u1", name := "n", mime := "m",
      isFile := false, isPublic := false, path := "", jsonData := "",
      grants := ["alice"], createdAt := "t" }
    (fun h => by cases h) rfl rfl ("alice") (by decide)

/-- C5 counterexample: two distinct argument tuples produce the same list
cache key when a component contains the `:` separator. -/
theorem c5_counterexample :
    listCacheKey ("a:b") ("c") ("") ("") 1 = listCacheKey ("a") ("b:c") ("") ("") 1 ∧
      ¬("a:b" = "a" ∧ "c" = "b:c") := by
  decide

/-- C5 (amended): the list cache key is a deterministic function of the
argument tuple, and it is injective on tuples whose string components are
free of the `:` separator; two distinct tuples can collide only when a
component contains `:`. -/
theorem c5_amended_key_injective (L1 O1 K1 V1 : String) (N1 : Nat)
    (L2 O2 K2 V2 : String) (N2 : Nat)
    (hL1 : ':' ∉ L1.data) (hO1 : ':' ∉ O1.data) (hK1 : ':' ∉ K1.data)
    (hV1 : ':' ∉ V1.data)
    (hL2 : ':' ∉ L2.data) (hO2 : ':' ∉ O2.data) (hK2 : ':' ∉ K2.data)
    (hV2 : ':' ∉ V2.data)
    (heq : listCacheKey L1 O1 K1 V1 N1 = listCacheKey L2 O2 K2 V2 N2) :
    L1 = L2 ∧ O1 = O2 ∧ K1 = K2 ∧ V1 = V2 ∧ N1 = N2 := by
  have hcol : ((":" : String)).data = [':'] := rfl
  have hdata := congrArg String.data heq
  simp only [listCacheKey, String.data_append, natDec_data, hcol,
    List.append_assoc, List.singleton_append] at hdata
  have h1 := List.append_cancel_left hdata
  obtain ⟨hLd, h2⟩ := colon_split _ _ _ _ hL1 hL2 h1
  obtain ⟨hOd, h3⟩ := colon_split _ _ _ _ hO1 hO2 h2
  obtain ⟨hKd, h4⟩ := colon_split _ _ _ _ hK1 hK2 h3
  obtain ⟨hVd, h5⟩ := colon_split _ _ _ _ hV1 hV2 h4
  exact ⟨String.ext hLd, String.ext hOd, String.ext hKd, String.ext hVd,
    natDecData_inj N1 N2 h5⟩

/-- Witness for the amended C5 at concrete colon-free components. -/
theorem c5_amended_key_injective_witness :
    "alice" = "alice" ∧ "bob" = "bob" ∧ "mime" = "mime" ∧
      "text" = "text" ∧ 10 = 10 :=
  c5_amended_key_injective ("alice") ("bob") ("mime") ("text") 10
    ("alice") ("bob") ("mime") ("text") 10
    (by decide) (by decide) (by decide) (by decide)
    (by decide) (by decide) (by decide) (by decide) rfl

end FileServer
